import Mathlib

/-!
Shallow embedding of `src/App.py` (the "GOLD-AND-SILVER-RALLY" dashboard):
the dataset merger `load_data` (lines 11-40) and the rolling regression
engine `calculate_rolling_betas` (lines 43-68), together with proofs of the
specification claims about them.

Modelling conventions.
* A spreadsheet numeric cell is `Cell`: a numeric value, a non-numeric text
  value, or an empty cell (pandas `NaN`).  Text that *would* parse as a
  number is modelled as `Cell.num`, so `Cell.str` stands exactly for the
  values `pd.to_numeric` cannot parse.
* Dates are integers (day numbers); the raw date cell is `RawDate`, and
  `parseDate` models `pd.to_datetime` on one cell: it recovers the day
  number of a well-formed date and fails on a malformed one.
* Exact rational arithmetic (`ℚ`) stands for the float arithmetic of the
  source; the claims under study concern only control flow, nullness,
  lengths, dates and exact identities, none of which depend on rounding.
-/

set_option maxRecDepth 40000

/-- A numeric spreadsheet cell as pandas holds it after `read_excel`:
a number, a piece of text that does not parse as a number, or an empty
cell (`NaN`). -/
inductive Cell
  | num (q : ℚ)
  | str (s : String)
  | empty
deriving DecidableEq

/-- Null test on a cell: pandas `isnull`/`dropna` treat only `NaN` as null;
text is not null. -/
def Cell.isNullCell : Cell → Bool
  | .empty => true
  | _ => false

/-- Models `pd.to_numeric(column, errors="coerce")` on one cell: numbers pass
through, unparseable text and empty cells become the null marker (`App.py`
lines 28-31). -/
def to_numeric : Cell → Option ℚ
  | .num q => some q
  | .str _ => none
  | .empty => none

/-- A raw date cell: either a well-formed date (carrying its day number) or a
malformed value `pd.to_datetime` rejects. -/
inductive RawDate
  | valid (d : ℤ)
  | invalid (s : String)
deriving DecidableEq

/-- Models `pd.to_datetime` on one cell (`App.py` lines 16-17). -/
def parseDate : RawDate → Option ℤ
  | .valid d => some d
  | .invalid _ => none

/-- A row of the `gold_silver_data.xlsx` input: a date plus the price and
returns columns the merger reads.  Price columns are number-or-blank;
the returns columns keep the full cell shape because `load_data` runs
`pd.to_numeric` over them. -/
structure PriceRow where
  date : RawDate
  gold_price : Option ℚ
  silver_price : Option ℚ
  gold_returns : Cell
  silver_returns : Cell
deriving DecidableEq

/-- A row of the `macro_data.xlsx` input. -/
structure MacroRow where
  date : RawDate
  india_cpi : Cell
  dxy : Cell
  us10y_yield : Cell
  googletrends_gold : Cell
  googletrends_silver : Cell
deriving DecidableEq

/-- The fatal error of the merger: a date cell `pd.to_datetime` cannot parse
(the exception propagates out of `load_data`). -/
structure ParseError where
  msg : String
deriving DecidableEq

/-- A price row with its date parsed. -/
structure PPriceRow where
  date : ℤ
  gold_price : Option ℚ
  silver_price : Option ℚ
  gold_returns : Cell
  silver_returns : Cell
deriving DecidableEq

/-- A macro row with its date parsed. -/
structure PMacroRow where
  date : ℤ
  india_cpi : Cell
  dxy : Cell
  us10y_yield : Cell
  googletrends_gold : Cell
  googletrends_silver : Cell
deriving DecidableEq

/-- Parse every date of the price table, failing on the first malformed one
(`App.py` line 16). -/
def parsePriceRows : List PriceRow → Except ParseError (List PPriceRow)
  | [] => .ok []
  | r :: rs =>
    match r.date with
    | .valid d =>
      (parsePriceRows rs).map
        (fun ps => ⟨d, r.gold_price, r.silver_price, r.gold_returns, r.silver_returns⟩ :: ps)
    | .invalid s => .error ⟨s⟩

/-- Parse every date of the macro table, failing on the first malformed one
(`App.py` line 17). -/
def parseMacroRows : List MacroRow → Except ParseError (List PMacroRow)
  | [] => .ok []
  | r :: rs =>
    match r.date with
    | .valid d =>
      (parseMacroRows rs).map
        (fun ms => ⟨d, r.india_cpi, r.dxy, r.us10y_yield, r.googletrends_gold,
          r.googletrends_silver⟩ :: ms)
    | .invalid s => .error ⟨s⟩

/-- One row of the joined table, before numeric coercion.  The price columns
already carry their post-rename names (`App.py` lines 23-26 rename
`Gold_Price` to `Gold_Close` and `Silver_Price` to `Silver_Close`). -/
structure JoinedRow where
  date : ℤ
  gold_close : Option ℚ
  silver_close : Option ℚ
  gold_returns : Cell
  silver_returns : Cell
  india_cpi : Cell
  dxy : Cell
  us10y_yield : Cell
  googletrends_gold : Cell
  googletrends_silver : Cell
deriving DecidableEq

/-- The combination of one price row and one macro row of the same date. -/
def joinRow (p : PPriceRow) (mr : PMacroRow) : JoinedRow :=
  ⟨p.date, p.gold_price, p.silver_price, p.gold_returns, p.silver_returns,
    mr.india_cpi, mr.dxy, mr.us10y_yield, mr.googletrends_gold, mr.googletrends_silver⟩

/-- `pd.merge(gold_silver, macro, on="Date", how="inner")` (`App.py` line 19):
every price row is combined with every macro row bearing the same date,
in left-major order. -/
def joinOnDate (ps : List PPriceRow) (ms : List PMacroRow) : List JoinedRow :=
  ps.flatMap (fun p =>
    ms.filterMap (fun mr => if mr.date = p.date then some (joinRow p mr) else none))

/-- `df.sort_values("Date")` (`App.py` line 20): sort the joined rows by
ascending date. -/
def sortByDate (l : List JoinedRow) : List JoinedRow :=
  List.insertionSort (fun a b => a.date ≤ b.date) l

/-- One row after the numeric coercion pass. -/
structure CoercedRow where
  date : ℤ
  gold_close : Option ℚ
  silver_close : Option ℚ
  gold_returns : Option ℚ
  silver_returns : Option ℚ
  dxy : Option ℚ
  us10y_yield : Option ℚ
  india_cpi : Cell
  googletrends_gold : Cell
  googletrends_silver : Cell
deriving DecidableEq

/-- The coercion pass (`App.py` lines 28-31): `pd.to_numeric(errors="coerce")`
is applied to exactly `Gold_Returns`, `Silver_Returns`, `DXY` and
`US10Y_Yield`; every other column passes through unchanged. -/
def coerceRow (j : JoinedRow) : CoercedRow :=
  ⟨j.date, j.gold_close, j.silver_close,
    to_numeric j.gold_returns, to_numeric j.silver_returns,
    to_numeric j.dxy, to_numeric j.us10y_yield,
    j.india_cpi, j.googletrends_gold, j.googletrends_silver⟩

/-- Collect the values of a window, failing if any is null. -/
def allSome : List (Option ℚ) → Option (List ℚ)
  | [] => some []
  | none :: _ => none
  | some x :: rest => (allSome rest).map (fun l => x :: l)

/-- Collect the value pairs of a window, failing if any component is null. -/
def allSome2 : List (Option ℚ × Option ℚ) → Option (List (ℚ × ℚ))
  | [] => some []
  | (some x, some y) :: rest => (allSome2 rest).map (fun l => (x, y) :: l)
  | _ :: _ => none

/-- Mean of a sample. -/
def sampleMean (xs : List ℚ) : ℚ := xs.sum / (xs.length : ℚ)

/-- Sample variance with one delta degree of freedom, as pandas `std` uses
(the square of the standard deviation). -/
def sampleVar (xs : List ℚ) : ℚ :=
  (xs.map (fun x => (x - sampleMean xs) * (x - sampleMean xs))).sum / ((xs.length : ℚ) - 1)

/-- Sample covariance with one delta degree of freedom. -/
def sampleCov (ps : List (ℚ × ℚ)) : ℚ :=
  (ps.map (fun p =>
    (p.1 - sampleMean (ps.map Prod.fst)) * (p.2 - sampleMean (ps.map Prod.snd)))).sum /
    ((ps.length : ℚ) - 1)

/-- Entry `i` of `series.rolling(w).std() * 252**0.5` (`App.py` lines 34-35):
null for the first `w - 1` positions and whenever the trailing window of `w`
values holds a null; a number otherwise.  The source stores the irrational
`std * sqrt 252`; since every claim about this column concerns only its
nullness, the rational `variance * 252` (the square of the source value,
null in exactly the same places) is stored instead. -/
def rollingStdAt (w : ℕ) (xs : List (Option ℚ)) (i : ℕ) : Option ℚ :=
  if i + 1 < w then none
  else
    match allSome ((xs.drop (i + 1 - w)).take w) with
    | none => none
    | some vals => some (sampleVar vals * 252)

/-- Entry `i` of `a.rolling(w).corr(b)` (`App.py` lines 36-37): null for the
first `w - 1` positions, whenever the trailing window holds a null in either
series, and whenever either windowed sample variance is zero (the float code
then divides zero by zero, producing `NaN`).  The source stores the Pearson
correlation `cov / (std a * std b)`; since every claim about this column
concerns only its nullness, the rational `cov / (var a * var b)` (same sign,
null in exactly the same places) is stored instead. -/
def rollingCorrAt (w : ℕ) (xs ys : List (Option ℚ)) (i : ℕ) : Option ℚ :=
  if i + 1 < w then none
  else
    match allSome2 (((xs.zip ys).drop (i + 1 - w)).take w) with
    | none => none
    | some ps =>
      if sampleVar (ps.map Prod.fst) = 0 ∨ sampleVar (ps.map Prod.snd) = 0 then none
      else
        some (sampleCov ps / (sampleVar (ps.map Prod.fst) * sampleVar (ps.map Prod.snd)))

/-- Elementwise nullable division, as `df["Gold_Close"] / df["Silver_Close"]`
behaves on present-or-null values: null whenever either operand is null
(`App.py` line 38). -/
def divOpt : Option ℚ → Option ℚ → Option ℚ
  | some a, some b => some (a / b)
  | _, _ => none

/-- One row of the fully merged table `load_data` returns. -/
structure MergedRow where
  date : ℤ
  gold_close : Option ℚ
  silver_close : Option ℚ
  gold_returns : Option ℚ
  silver_returns : Option ℚ
  dxy : Option ℚ
  us10y_yield : Option ℚ
  india_cpi : Cell
  googletrends_gold : Cell
  googletrends_silver : Cell
  gold_volatility : Option ℚ
  silver_volatility : Option ℚ
  gold_to_dxy_corr : Option ℚ
  gold_to_yield_corr : Option ℚ
  gold_silver_ratio : Option ℚ
deriving DecidableEq

/-- Map with the element's position, starting the count at `n`. -/
def mapWith (f : ℕ → α → β) : ℕ → List α → List β
  | _, [] => []
  | i, a :: as => f i a :: mapWith f (i + 1) as

/-- The derived-column pass (`App.py` lines 33-38): each rolling column is
computed over the full coerced table, and the ratio row by row. -/
def addDerived (rows : List CoercedRow) : List MergedRow :=
  mapWith (fun i r =>
    ⟨r.date, r.gold_close, r.silver_close, r.gold_returns, r.silver_returns,
      r.dxy, r.us10y_yield, r.india_cpi, r.googletrends_gold, r.googletrends_silver,
      rollingStdAt 30 (rows.map (fun x => x.gold_returns)) i,
      rollingStdAt 30 (rows.map (fun x => x.silver_returns)) i,
      rollingCorrAt 90 (rows.map (fun x => x.gold_returns)) (rows.map (fun x => x.dxy)) i,
      rollingCorrAt 90 (rows.map (fun x => x.gold_returns)) (rows.map (fun x => x.us10y_yield)) i,
      divOpt r.gold_close r.silver_close⟩) 0 rows

/-- `load_data` (`App.py` lines 11-40): parse the dates of both tables
(failing on a malformed date), inner-join on exact date equality, sort
ascending by date, coerce the designated numeric columns, and add the
derived columns. -/
def load_data (gold_silver : List PriceRow) (macroRows : List MacroRow) :
    Except ParseError (List MergedRow) :=
  match parsePriceRows gold_silver with
  | .error e => .error e
  | .ok ps =>
    match parseMacroRows macroRows with
    | .error e => .error e
    | .ok ms => .ok (addDerived ((sortByDate (joinOnDate ps ms)).map coerceRow))

/-- The merged table of a pair of inputs, or the empty table when `load_data`
fails (a convenience accessor for stating row-level claims). -/
def mergedRows (gold_silver : List PriceRow) (macroRows : List MacroRow) : List MergedRow :=
  match load_data gold_silver macroRows with
  | .ok t => t
  | .error _ => []

/-- A throwaway row, used only as the default of `List.getD`. -/
def dummyRow : MergedRow :=
  ⟨0, none, none, none, none, none, none, .empty, .empty, .empty, none, none, none, none, none⟩

/-- The coefficients `sm.OLS(y, X).fit().params` exposes for the four named
predictor columns (the constant's coefficient is read by no caller). -/
structure Coeffs where
  india_cpi : ℚ
  dxy : ℚ
  us10y_yield : ℚ
  googletrends_gold : ℚ
deriving DecidableEq

/-- One row of the predictor matrix `X`: the four macro columns of the window
plus the constant column `sm.add_constant` prepends (`App.py` lines 50-51).
The constant is the literal `1`, never null. -/
structure RegXRow where
  const : ℚ
  india_cpi : Cell
  dxy : Option ℚ
  us10y_yield : Option ℚ
  googletrends_gold : Cell
deriving DecidableEq

/-- One output record of the rolling regression (`App.py` lines 58-64). -/
structure RegressionPoint where
  date : ℤ
  inflation_beta : Option ℚ
  dxy_beta : Option ℚ
  us10y_yield_beta : Option ℚ
  sentiment_beta : Option ℚ
deriving DecidableEq

/-- The `dropna` subset test (`App.py` line 45): a row survives when none of
`Gold_Returns`, `India_CPI`, `DXY`, `US10Y_Yield`, `GoogleTrends_Gold` is
null. -/
def regRowValid (r : MergedRow) : Bool :=
  r.gold_returns.isSome && !(Cell.isNullCell r.india_cpi) && r.dxy.isSome &&
    r.us10y_yield.isSome && !(Cell.isNullCell r.googletrends_gold)

/-- The response vector of window `i`: `df["Gold_Returns"].iloc[i-window:i]`
(`App.py` line 49). -/
def windowY (d : List MergedRow) (window i : ℕ) : List (Option ℚ) :=
  ((d.drop (i - window)).take window).map (fun r => r.gold_returns)

/-- The predictor matrix of window `i` with its constant column
(`App.py` lines 50-51). -/
def windowX (d : List MergedRow) (window i : ℕ) : List RegXRow :=
  ((d.drop (i - window)).take window).map
    (fun r => ⟨1, r.india_cpi, r.dxy, r.us10y_yield, r.googletrends_gold⟩)

/-- Null test on one predictor row (`X.isnull().values.any()` looks at every
column of `X`; the constant column is the literal `1` and is never null). -/
def regXRowHasNull (x : RegXRow) : Bool :=
  Cell.isNullCell x.india_cpi || x.dxy.isNone || x.us10y_yield.isNone ||
    Cell.isNullCell x.googletrends_gold

/-- The per-window null check (`App.py` line 53). -/
def windowHasNull (d : List MergedRow) (window i : ℕ) : Bool :=
  (windowX d window i).any regXRowHasNull || (windowY d window i).any Option.isNone

/-- The body of one iteration of the regression loop (`App.py` lines 48-66):
look up the end row, skip if the window holds a null, run the fit, skip if it
fails, and otherwise emit the point dated by the end row, with each
coefficient wrapped as a present value (`params.get` finds every predictor
name, so the `None` default is never taken).  `fit` abstracts the external
solver `sm.OLS(y, X).fit()`; a `none` result models the solver raising, which
the bare `except` of line 65 turns into a silent skip. -/
def stepPoint (fit : List (Option ℚ) → List RegXRow → Option Coeffs)
    (d : List MergedRow) (window i : ℕ) : Option RegressionPoint :=
  (d.get? i).bind (fun r =>
    if windowHasNull d window i then none
    else
      (fit (windowY d window i) (windowX d window i)).map (fun c =>
        ⟨r.date, some c.india_cpi, some c.dxy, some c.us10y_yield,
          some c.googletrends_gold⟩))

/-- `calculate_rolling_betas` (`App.py` lines 43-68): drop, once and globally,
every row with a null among the five required columns, then run the window
loop for `i` from `window` to the filtered length minus one, collecting the
points the iterations emit. -/
def calculate_rolling_betas (fit : List (Option ℚ) → List RegXRow → Option Coeffs)
    (df : List MergedRow) (window : ℕ) : List RegressionPoint :=
  let d := df.filter regRowValid
  (List.range' window (d.length - window)).filterMap (stepPoint fit d window)

/-! ### Structural lemmas about the helper combinators -/

theorem mapWith_length (f : ℕ → α → β) (n : ℕ) (l : List α) :
    (mapWith f n l).length = l.length := by
  induction l generalizing n with
  | nil => rfl
  | cons a as ih => simp [mapWith, ih]

theorem mapWith_get? (f : ℕ → α → β) (n : ℕ) (l : List α) (i : ℕ) :
    (mapWith f n l).get? i = (l.get? i).map (f (n + i)) := by
  induction l generalizing n i with
  | nil => simp [mapWith]
  | cons a as ih =>
    cases i with
    | zero => simp [mapWith]
    | succ k =>
      have h := ih (n + 1) k
      simpa [mapWith, Nat.add_comm, Nat.add_assoc, Nat.add_left_comm] using h

theorem mem_mapWith {f : ℕ → α → β} {b : β} {n : ℕ} {l : List α} (h : b ∈ mapWith f n l) :
    ∃ j a, a ∈ l ∧ b = f j a := by
  induction l generalizing n with
  | nil => cases h
  | cons a as ih =>
    rw [show mapWith f n (a :: as) = f n a :: mapWith f (n + 1) as from rfl] at h
    rcases List.mem_cons.mp h with h | h
    · exact ⟨n, a, List.mem_cons_self a as, h⟩
    · rcases ih h with ⟨j, a', ha', hb⟩
      exact ⟨j, a', List.mem_cons_of_mem _ ha', hb⟩

theorem map_mapWith (g : β → γ) (f : ℕ → α → β) (n : ℕ) (l : List α) :
    (mapWith f n l).map g = mapWith (fun i a => g (f i a)) n l := by
  induction l generalizing n with
  | nil => rfl
  | cons a as ih => simp [mapWith, ih]

theorem mapWith_const (f : α → β) (n : ℕ) (l : List α) :
    mapWith (fun _ a => f a) n l = l.map f := by
  induction l generalizing n with
  | nil => rfl
  | cons a as ih => simp [mapWith, ih]

theorem allSome_of_forall {l : List (Option ℚ)} (h : ∀ x ∈ l, x.isSome) :
    ∃ vals, allSome l = some vals := by
  induction l with
  | nil => exact ⟨[], rfl⟩
  | cons x xs ih =>
    rcases ih (fun y hy => h y (List.mem_cons_of_mem _ hy)) with ⟨vals, hvals⟩
    have hx := h x (List.mem_cons_self x xs)
    cases x with
    | none => simp at hx
    | some v => exact ⟨v :: vals, by simp [allSome, hvals]⟩

theorem allSome2_of_forall {l : List (Option ℚ × Option ℚ)}
    (h : ∀ x ∈ l, x.1.isSome ∧ x.2.isSome) :
    ∃ ps, allSome2 l = some ps := by
  induction l with
  | nil => exact ⟨[], rfl⟩
  | cons x xs ih =>
    rcases ih (fun y hy => h y (List.mem_cons_of_mem _ hy)) with ⟨ps, hps⟩
    have hx := h x (List.mem_cons_self x xs)
    rcases x with ⟨a, b⟩
    cases a with
    | none => simp at hx
    | some va =>
      cases b with
      | none => simp at hx
      | some vb => exact ⟨(va, vb) :: ps, by simp [allSome2, hps]⟩

theorem filterMap_length_lt {f : α → Option β} {l : List α} {a : α}
    (ha : a ∈ l) (hfa : f a = none) : (l.filterMap f).length < l.length := by
  induction l with
  | nil => cases ha
  | cons b bs ih =>
    rcases List.mem_cons.mp ha with h | h
    · subst h
      rw [List.filterMap_cons_none hfa]
      exact Nat.lt_succ_of_le (List.length_filterMap_le f bs)
    · cases hfb : f b with
      | none =>
        rw [List.filterMap_cons_none hfb]
        exact Nat.lt_succ_of_lt (ih h)
      | some c =>
        rw [List.filterMap_cons_some hfb]
        exact Nat.succ_lt_succ (ih h)

theorem filterMap_eq_filter_ne [DecidableEq α] {f : α → Option β} {i : α}
    (h : f i = none) (l : List α) :
    l.filterMap f = (l.filter (fun j => j ≠ i)).filterMap f := by
  induction l with
  | nil => rfl
  | cons a as ih =>
    by_cases hai : a = i
    · subst hai
      simp [List.filterMap_cons, h, ih]
    · simp [List.filter_cons, hai, List.filterMap_cons, ih]

/-! ### Lemmas about the sample statistics -/

theorem sum_sq_eq_zero {l : List ℚ} {c : ℚ}
    (h : (l.map (fun x => (x - c) * (x - c))).sum = 0) : ∀ x ∈ l, x = c := by
  induction l with
  | nil => intro x hx; cases hx
  | cons a as ih =>
    rw [List.map_cons, List.sum_cons] at h
    have hhead : (0 : ℚ) ≤ (a - c) * (a - c) := mul_self_nonneg _
    have htail : (0 : ℚ) ≤ (as.map (fun x => (x - c) * (x - c))).sum := by
      apply List.sum_nonneg
      intro x hx
      rcases List.mem_map.mp hx with ⟨y, _, rfl⟩
      exact mul_self_nonneg _
    have h1 : (a - c) * (a - c) = 0 := le_antisymm (by linarith) hhead
    have h2 : (as.map (fun x => (x - c) * (x - c))).sum = 0 := le_antisymm (by linarith) htail
    intro x hx
    rcases List.mem_cons.mp hx with hx | hx
    · subst hx
      have := mul_self_eq_zero.mp h1
      linarith [this]
    · exact ih h2 x hx

theorem sampleMean_const {l : List ℚ} {c : ℚ} (hne : l ≠ []) (h : ∀ x ∈ l, x = c) :
    sampleMean l = c := by
  have hrep : l = List.replicate l.length c := List.eq_replicate_of_mem h
  have hlen : (l.length : ℚ) ≠ 0 :=
    Nat.cast_ne_zero.mpr (Nat.pos_iff_ne_zero.mp (List.length_pos.mpr hne))
  rw [sampleMean, hrep, List.sum_replicate, List.length_replicate, nsmul_eq_mul]
  exact mul_div_cancel_left₀ c hlen

theorem sampleVar_const {l : List ℚ} {c : ℚ} (h : ∀ x ∈ l, x = c) :
    sampleVar l = 0 := by
  rcases eq_or_ne l [] with rfl | hne
  · simp [sampleVar]
  · have hm : sampleMean l = c := sampleMean_const hne h
    have hsum : (l.map (fun x => (x - sampleMean l) * (x - sampleMean l))).sum = 0 := by
      apply List.sum_eq_zero
      intro x hx
      rcases List.mem_map.mp hx with ⟨y, hy, rfl⟩
      rw [hm, h y hy, sub_self, mul_zero]
    rw [sampleVar, hsum, zero_div]

theorem two_le_length_of_two_mem {l : List ℚ} {a b : ℚ}
    (ha : a ∈ l) (hb : b ∈ l) (hab : a ≠ b) : 2 ≤ l.length := by
  cases l with
  | nil => cases ha
  | cons x xs =>
    cases xs with
    | nil =>
      have ha' : a = x := by simpa using ha
      have hb' : b = x := by simpa using hb
      exact absurd (ha'.trans hb'.symm) hab
    | cons y ys =>
      simp only [List.length_cons]
      omega

theorem sampleVar_ne_zero {l : List ℚ} {a b : ℚ}
    (ha : a ∈ l) (hb : b ∈ l) (hab : a ≠ b) : sampleVar l ≠ 0 := by
  intro h0
  have h2 : 2 ≤ l.length := two_le_length_of_two_mem ha hb hab
  have hden : ((l.length : ℚ) - 1) ≠ 0 := by
    have h2q : (2 : ℚ) ≤ (l.length : ℚ) := by exact_mod_cast h2
    intro hz
    linarith
  rw [sampleVar, div_eq_zero_iff] at h0
  rcases h0 with h0 | h0
  · have hall := sum_sq_eq_zero h0
    exact hab ((hall a ha).trans (hall b hb).symm)
  · exact hden h0

/-! ### Branch lemmas for the rolling statistics -/

theorem rollingStdAt_eq_none_of_lt {w i : ℕ} (h : i + 1 < w) (xs : List (Option ℚ)) :
    rollingStdAt w xs i = none := by
  simp [rollingStdAt, h]

theorem rollingStdAt_isSome {w i : ℕ} {xs : List (Option ℚ)} {vals : List ℚ}
    (h : ¬ i + 1 < w) (hv : allSome ((xs.drop (i + 1 - w)).take w) = some vals) :
    (rollingStdAt w xs i).isSome = true := by
  simp [rollingStdAt, h, hv]

theorem rollingCorrAt_eq_none_of_lt {w i : ℕ} (h : i + 1 < w) (xs ys : List (Option ℚ)) :
    rollingCorrAt w xs ys i = none := by
  simp [rollingCorrAt, h]

theorem rollingCorrAt_eq_none_of_var {w i : ℕ} {xs ys : List (Option ℚ)} {ps : List (ℚ × ℚ)}
    (h : ¬ i + 1 < w) (hps : allSome2 (((xs.zip ys).drop (i + 1 - w)).take w) = some ps)
    (hv : sampleVar (ps.map Prod.fst) = 0 ∨ sampleVar (ps.map Prod.snd) = 0) :
    rollingCorrAt w xs ys i = none := by
  simp only [rollingCorrAt, if_neg h, hps]
  rw [if_pos hv]

theorem rollingCorrAt_isSome {w i : ℕ} {xs ys : List (Option ℚ)} {ps : List (ℚ × ℚ)}
    (h : ¬ i + 1 < w) (hps : allSome2 (((xs.zip ys).drop (i + 1 - w)).take w) = some ps)
    (hv1 : sampleVar (ps.map Prod.fst) ≠ 0) (hv2 : sampleVar (ps.map Prod.snd) ≠ 0) :
    (rollingCorrAt w xs ys i).isSome = true := by
  simp only [rollingCorrAt, if_neg h, hps]
  rw [if_neg (not_or.mpr ⟨hv1, hv2⟩)]
  rfl

/-! ### Lemmas about date parsing -/

theorem parsePriceRows_ok {p : List PriceRow} {ps : List PPriceRow}
    (h : parsePriceRows p = .ok ps) :
    ps.length = p.length ∧
      ps.map (fun r => r.date) = p.filterMap (fun r => parseDate r.date) := by
  induction p generalizing ps with
  | nil =>
    cases h
    exact ⟨rfl, rfl⟩
  | cons r rs ih =>
    cases hd : r.date with
    | valid d =>
      rw [parsePriceRows, hd] at h
      cases hrec : parsePriceRows rs with
      | error e => rw [hrec] at h; cases h
      | ok tail =>
        rw [hrec] at h
        cases h
        rcases ih hrec with ⟨h1, h2⟩
        refine ⟨by simp [h1], ?_⟩
        simp [List.filterMap_cons, hd, parseDate, h2]
    | invalid s =>
      rw [parsePriceRows, hd] at h
      cases h

theorem parseMacroRows_ok {m : List MacroRow} {ms : List PMacroRow}
    (h : parseMacroRows m = .ok ms) :
    ms.length = m.length ∧
      ms.map (fun r => r.date) = m.filterMap (fun r => parseDate r.date) := by
  induction m generalizing ms with
  | nil =>
    cases h
    exact ⟨rfl, rfl⟩
  | cons r rs ih =>
    cases hd : r.date with
    | valid d =>
      rw [parseMacroRows, hd] at h
      cases hrec : parseMacroRows rs with
      | error e => rw [hrec] at h; cases h
      | ok tail =>
        rw [hrec] at h
        cases h
        rcases ih hrec with ⟨h1, h2⟩
        refine ⟨by simp [h1], ?_⟩
        simp [List.filterMap_cons, hd, parseDate, h2]
    | invalid s =>
      rw [parseMacroRows, hd] at h
      cases h

theorem parsePriceRows_error_iff (p : List PriceRow) :
    (∃ e, parsePriceRows p = .error e) ↔ ∃ r ∈ p, parseDate r.date = none := by
  induction p with
  | nil =>
    constructor
    · rintro ⟨e, he⟩; cases he
    · rintro ⟨r, hr, _⟩; cases hr
  | cons r rs ih =>
    cases hd : r.date with
    | valid d =>
      constructor
      · rintro ⟨e, he⟩
        rw [parsePriceRows, hd] at he
        cases hrec : parsePriceRows rs with
        | error e' =>
          rcases ih.mp ⟨e', hrec⟩ with ⟨r', hr', hr'none⟩
          exact ⟨r', List.mem_cons_of_mem _ hr', hr'none⟩
        | ok tail => rw [hrec] at he; cases he
      · rintro ⟨r', hr', hr'none⟩
        rcases List.mem_cons.mp hr' with rfl | hmem
        · rw [parseDate.eq_def, hd] at hr'none
          cases hr'none
        · rcases ih.mpr ⟨r', hmem, hr'none⟩ with ⟨e, he⟩
          refine ⟨e, ?_⟩
          rw [parsePriceRows, hd, he]
          rfl
    | invalid s =>
      constructor
      · intro _
        exact ⟨r, List.mem_cons_self r rs, by rw [parseDate.eq_def, hd]⟩
      · intro _
        exact ⟨⟨s⟩, by rw [parsePriceRows, hd]⟩

theorem parseMacroRows_error_iff (m : List MacroRow) :
    (∃ e, parseMacroRows m = .error e) ↔ ∃ r ∈ m, parseDate r.date = none := by
  induction m with
  | nil =>
    constructor
    · rintro ⟨e, he⟩; cases he
    · rintro ⟨r, hr, _⟩; cases hr
  | cons r rs ih =>
    cases hd : r.date with
    | valid d =>
      constructor
      · rintro ⟨e, he⟩
        rw [parseMacroRows, hd] at he
        cases hrec : parseMacroRows rs with
        | error e' =>
          rcases ih.mp ⟨e', hrec⟩ with ⟨r', hr', hr'none⟩
          exact ⟨r', List.mem_cons_of_mem _ hr', hr'none⟩
        | ok tail => rw [hrec] at he; cases he
      · rintro ⟨r', hr', hr'none⟩
        rcases List.mem_cons.mp hr' with rfl | hmem
        · rw [parseDate.eq_def, hd] at hr'none
          cases hr'none
        · rcases ih.mpr ⟨r', hmem, hr'none⟩ with ⟨e, he⟩
          refine ⟨e, ?_⟩
          rw [parseMacroRows, hd, he]
          rfl
    | invalid s =>
      constructor
      · intro _
        exact ⟨r, List.mem_cons_self r rs, by rw [parseDate.eq_def, hd]⟩
      · intro _
        exact ⟨⟨s⟩, by rw [parseMacroRows, hd]⟩

theorem parseMacroRows_mem {m : List MacroRow} {ms : List PMacroRow}
    (h : parseMacroRows m = .ok ms) {mr' : PMacroRow} (hmem : mr' ∈ ms) :
    ∃ mr ∈ m, parseDate mr.date = some mr'.date ∧
      mr'.india_cpi = mr.india_cpi ∧ mr'.dxy = mr.dxy ∧
      mr'.us10y_yield = mr.us10y_yield ∧
      mr'.googletrends_gold = mr.googletrends_gold ∧
      mr'.googletrends_silver = mr.googletrends_silver := by
  induction m generalizing ms with
  | nil =>
    cases h
    cases hmem
  | cons r rs ih =>
    cases hd : r.date with
    | valid d =>
      rw [parseMacroRows, hd] at h
      cases hrec : parseMacroRows rs with
      | error e => rw [hrec] at h; cases h
      | ok tail =>
        rw [hrec] at h
        cases h
        rcases List.mem_cons.mp hmem with rfl | hmem'
        · exact ⟨r, List.mem_cons_self r rs, by rw [parseDate.eq_def, hd], rfl, rfl, rfl, rfl, rfl⟩
        · rcases ih hrec hmem' with ⟨mr, hmr, hrest⟩
          exact ⟨mr, List.mem_cons_of_mem _ hmr, hrest⟩
    | invalid s =>
      rw [parseMacroRows, hd] at h
      cases h

/-! ### Lemmas about the inner join and the sort -/

theorem join_inner_nil {p : PPriceRow} {ms : List PMacroRow}
    (h : p.date ∉ ms.map (fun r => r.date)) :
    ms.filterMap (fun mr => if mr.date = p.date then some (joinRow p mr) else none) = [] := by
  induction ms with
  | nil => rfl
  | cons mr rest ih =>
    simp only [List.map_cons, List.mem_cons, not_or] at h
    rw [List.filterMap_cons_none (by rw [if_neg (fun he => h.1 he.symm)]), ih h.2]

theorem join_inner_dates {p : PPriceRow} {ms : List PMacroRow}
    (hnm : (ms.map (fun r => r.date)).Nodup) (hmem : p.date ∈ ms.map (fun r => r.date)) :
    (ms.filterMap (fun mr => if mr.date = p.date then some (joinRow p mr) else none)).map
      (fun r => r.date) = [p.date] := by
  induction ms with
  | nil => cases hmem
  | cons mr rest ih =>
    simp only [List.map_cons, List.nodup_cons] at hnm
    by_cases he : mr.date = p.date
    · rw [List.filterMap_cons_some (by rw [if_pos he])]
      have hrest : p.date ∉ rest.map (fun r => r.date) := by
        rw [← he]
        exact hnm.1
      rw [join_inner_nil hrest]
      rfl
    · rw [List.filterMap_cons_none (by rw [if_neg he])]
      apply ih hnm.2
      rw [List.map_cons] at hmem
      rcases List.mem_cons.mp hmem with h1 | h1
      · exact absurd h1.symm he
      · exact h1

theorem joinOnDate_dates {ps : List PPriceRow} {ms : List PMacroRow}
    (hnm : (ms.map (fun r => r.date)).Nodup) :
    (joinOnDate ps ms).map (fun r => r.date)
      = (ps.map (fun r => r.date)).filter (fun d => d ∈ ms.map (fun r => r.date)) := by
  induction ps with
  | nil => rfl
  | cons p rest ih =>
    rw [joinOnDate, List.flatMap_cons, List.map_append]
    rw [joinOnDate] at ih
    rw [ih, List.map_cons, List.filter_cons]
    by_cases hp : p.date ∈ ms.map (fun r => r.date)
    · rw [join_inner_dates hnm hp, if_pos (by simpa using hp)]
      rfl
    · rw [join_inner_nil hp, if_neg (by simpa using hp)]
      rfl

theorem mem_joinOnDate {ps : List PPriceRow} {ms : List PMacroRow} {j : JoinedRow}
    (h : j ∈ joinOnDate ps ms) :
    ∃ p ∈ ps, ∃ mr ∈ ms, mr.date = p.date ∧ j = joinRow p mr := by
  rw [joinOnDate, List.mem_flatMap] at h
  rcases h with ⟨p, hp, hin⟩
  rw [List.mem_filterMap] at hin
  rcases hin with ⟨mr, hmr, hif⟩
  by_cases he : mr.date = p.date
  · rw [if_pos he] at hif
    cases hif
    exact ⟨p, hp, mr, hmr, he, rfl⟩
  · rw [if_neg he] at hif
    cases hif

instance : IsTotal JoinedRow (fun a b => a.date ≤ b.date) :=
  ⟨fun a b => Int.le_total a.date b.date⟩

instance : IsTrans JoinedRow (fun a b => a.date ≤ b.date) :=
  ⟨fun _ _ _ h1 h2 => le_trans h1 h2⟩

theorem sortByDate_perm (l : List JoinedRow) : (sortByDate l).Perm l :=
  List.perm_insertionSort _ l

theorem sortByDate_sorted (l : List JoinedRow) :
    List.Pairwise (fun a b => a.date ≤ b.date) (sortByDate l) :=
  List.sorted_insertionSort _ l

/-! ### Lemmas about the derived-column pass and `load_data` -/

theorem addDerived_length (rows : List CoercedRow) : (addDerived rows).length = rows.length :=
  mapWith_length _ _ _

theorem addDerived_get? (rows : List CoercedRow) (i : ℕ) :
    (addDerived rows).get? i = (rows.get? i).map (fun r =>
      (⟨r.date, r.gold_close, r.silver_close, r.gold_returns, r.silver_returns,
        r.dxy, r.us10y_yield, r.india_cpi, r.googletrends_gold, r.googletrends_silver,
        rollingStdAt 30 (rows.map (fun x => x.gold_returns)) i,
        rollingStdAt 30 (rows.map (fun x => x.silver_returns)) i,
        rollingCorrAt 90 (rows.map (fun x => x.gold_returns)) (rows.map (fun x => x.dxy)) i,
        rollingCorrAt 90 (rows.map (fun x => x.gold_returns)) (rows.map (fun x => x.us10y_yield)) i,
        divOpt r.gold_close r.silver_close⟩ : MergedRow)) := by
  rw [addDerived, mapWith_get?, Nat.zero_add]

theorem addDerived_map_date (rows : List CoercedRow) :
    (addDerived rows).map (fun r => r.date) = rows.map (fun r => r.date) := by
  rw [addDerived, map_mapWith]
  exact mapWith_const (fun r : CoercedRow => r.date) 0 rows

theorem addDerived_map_gold_returns (rows : List CoercedRow) :
    (addDerived rows).map (fun r => r.gold_returns) = rows.map (fun r => r.gold_returns) := by
  rw [addDerived, map_mapWith]
  exact mapWith_const (fun r : CoercedRow => r.gold_returns) 0 rows

theorem addDerived_map_dxy (rows : List CoercedRow) :
    (addDerived rows).map (fun r => r.dxy) = rows.map (fun r => r.dxy) := by
  rw [addDerived, map_mapWith]
  exact mapWith_const (fun r : CoercedRow => r.dxy) 0 rows

theorem addDerived_map_us10y_yield (rows : List CoercedRow) :
    (addDerived rows).map (fun r => r.us10y_yield) = rows.map (fun r => r.us10y_yield) := by
  rw [addDerived, map_mapWith]
  exact mapWith_const (fun r : CoercedRow => r.us10y_yield) 0 rows

theorem load_data_ok {p : List PriceRow} {m : List MacroRow} {t : List MergedRow}
    (h : load_data p m = .ok t) :
    ∃ ps ms, parsePriceRows p = .ok ps ∧ parseMacroRows m = .ok ms ∧
      t = addDerived ((sortByDate (joinOnDate ps ms)).map coerceRow) := by
  rw [load_data] at h
  cases h1 : parsePriceRows p with
  | error e => rw [h1] at h; cases h
  | ok ps =>
    rw [h1] at h
    cases h2 : parseMacroRows m with
    | error e => rw [h2] at h; cases h
    | ok ms =>
      rw [h2] at h
      cases h
      exact ⟨ps, ms, rfl, rfl, rfl⟩

theorem mergedRows_eq {p : List PriceRow} {m : List MacroRow} {t : List MergedRow}
    (h : load_data p m = .ok t) : mergedRows p m = t := by
  rw [mergedRows, h]

/-! ### Lemmas about the regression loop -/

theorem mem_window {d : List MergedRow} {w i : ℕ} {r : MergedRow}
    (h : r ∈ (d.drop (i - w)).take w) : r ∈ d :=
  ((List.take_sublist _ _).trans (List.drop_sublist _ _)).mem h

theorem windowHasNull_filter (df : List MergedRow) (w i : ℕ) :
    windowHasNull (df.filter regRowValid) w i = false := by
  rw [windowHasNull, Bool.or_eq_false_iff]
  constructor
  · rw [List.any_eq_false]
    intro x hx
    rw [windowX, List.mem_map] at hx
    rcases hx with ⟨r, hr, rfl⟩
    have hv : regRowValid r = true := List.of_mem_filter (mem_window hr)
    rw [regRowValid] at hv
    simp only [Bool.and_eq_true, Bool.not_eq_true'] at hv
    rcases hv with ⟨⟨⟨⟨h1, h2⟩, h3⟩, h4⟩, h5⟩
    rcases Option.isSome_iff_exists.mp h3 with ⟨v3, hv3⟩
    rcases Option.isSome_iff_exists.mp h4 with ⟨v4, hv4⟩
    rw [regXRowHasNull]
    simp [h2, h5, hv3, hv4]
  · rw [List.any_eq_false]
    intro x hx
    rw [windowY, List.mem_map] at hx
    rcases hx with ⟨r, hr, rfl⟩
    have hv : regRowValid r = true := List.of_mem_filter (mem_window hr)
    rw [regRowValid] at hv
    simp only [Bool.and_eq_true, Bool.not_eq_true'] at hv
    rcases Option.isSome_iff_exists.mp hv.1.1.1.1 with ⟨v, hvv⟩
    simp [hvv]

theorem stepPoint_some {fit : List (Option ℚ) → List RegXRow → Option Coeffs}
    {d : List MergedRow} {w i : ℕ} {pt : RegressionPoint}
    (h : stepPoint fit d w i = some pt) :
    ∃ r, d.get? i = some r ∧ pt.date = r.date ∧
      pt.inflation_beta.isSome = true ∧ pt.dxy_beta.isSome = true ∧
      pt.us10y_yield_beta.isSome = true ∧ pt.sentiment_beta.isSome = true := by
  rw [stepPoint] at h
  cases hg : d.get? i with
  | none => rw [hg] at h; cases h
  | some r =>
    rw [hg, Option.some_bind] at h
    by_cases hw : windowHasNull d w i
    · rw [if_pos hw] at h; cases h
    · rw [if_neg hw] at h
      cases hf : fit (windowY d w i) (windowX d w i) with
      | none => rw [hf] at h; cases h
      | some c =>
        rw [hf, Option.map_some'] at h
        cases h
        exact ⟨r, rfl, rfl, rfl, rfl, rfl, rfl⟩

theorem stepPoint_isSome {fit : List (Option ℚ) → List RegXRow → Option Coeffs}
    {d : List MergedRow} {w i : ℕ} (hi : i < d.length)
    (hnull : windowHasNull d w i = false)
    (hfit : fit (windowY d w i) (windowX d w i) ≠ none) :
    (stepPoint fit d w i).isSome = true := by
  cases hf : fit (windowY d w i) (windowX d w i) with
  | none => exact absurd hf hfit
  | some c =>
    rw [stepPoint, List.get?_eq_get hi, Option.some_bind,
      if_neg (by rw [hnull]; simp), hf, Option.map_some']
    rfl

theorem stepPoint_none_of_skip {fit : List (Option ℚ) → List RegXRow → Option Coeffs}
    {d : List MergedRow} {w i : ℕ}
    (h : windowHasNull d w i = true ∨ fit (windowY d w i) (windowX d w i) = none) :
    stepPoint fit d w i = none := by
  rw [stepPoint]
  cases hg : d.get? i with
  | none => rfl
  | some r =>
    rw [Option.some_bind]
    rcases h with h | h
    · rw [if_pos h]
    · by_cases hw : windowHasNull d w i
      · rw [if_pos hw]
      · rw [if_neg hw, h]
        rfl

theorem stepPoint_none_iff {fit : List (Option ℚ) → List RegXRow → Option Coeffs}
    {d : List MergedRow} {w i : ℕ} (hi : i < d.length)
    (hnull : windowHasNull d w i = false) :
    (stepPoint fit d w i = none ↔ fit (windowY d w i) (windowX d w i) = none) := by
  constructor
  · intro h
    cases hf : fit (windowY d w i) (windowX d w i) with
    | none => rfl
    | some c =>
      rw [stepPoint, List.get?_eq_get hi, Option.some_bind,
        if_neg (by rw [hnull]; simp), hf, Option.map_some'] at h
      cases h
  · intro h
    exact stepPoint_none_of_skip (Or.inr h)

theorem calculate_rolling_betas_eq
    (fit : List (Option ℚ) → List RegXRow → Option Coeffs)
    (df : List MergedRow) (w : ℕ) :
    calculate_rolling_betas fit df w =
      (List.range' w ((df.filter regRowValid).length - w)).filterMap
        (stepPoint fit (df.filter regRowValid) w) := rfl

theorem length_filterMap_of_forall_isSome {f : α → Option β} {l : List α}
    (h : ∀ a ∈ l, (f a).isSome = true) : (l.filterMap f).length = l.length := by
  induction l with
  | nil => rfl
  | cons a as ih =>
    have ha := h a (List.mem_cons_self a as)
    cases hfa : f a with
    | none => rw [hfa] at ha; cases ha
    | some b =>
      rw [List.filterMap_cons_some hfa, List.length_cons, List.length_cons,
        ih (fun x hx => h x (List.mem_cons_of_mem _ hx))]

theorem mergedRows_decomp (p : List PriceRow) (m : List MacroRow) :
    ∃ rows : List CoercedRow, mergedRows p m = addDerived rows := by
  cases hld : load_data p m with
  | error e => exact ⟨[], by rw [mergedRows, hld]; rfl⟩
  | ok t =>
    rcases load_data_ok hld with ⟨ps, ms, _, _, rfl⟩
    exact ⟨(sortByDate (joinOnDate ps ms)).map coerceRow, by rw [mergedRows, hld]⟩

/-! ### Concrete instances used by the witnesses -/

/-- A merged-table row with every regression column present. -/
def mkValidRow (n : ℕ) : MergedRow :=
  ⟨(n : ℤ), some 10, none, some 1, some 1, some 1, some 1, .num 1, .num 1, .num 1,
    none, none, none, none, none⟩

/-- A solver stand-in that always succeeds. -/
def fitStub : List (Option ℚ) → List RegXRow → Option Coeffs := fun _ _ => some ⟨0, 0, 0, 0⟩

/-- A solver stand-in that always raises. -/
def fitNone : List (Option ℚ) → List RegXRow → Option Coeffs := fun _ _ => none

/-- Three hundred regression-complete rows. -/
def df300 : List MergedRow := (List.range 300).map mkValidRow

/-- Two regression-complete rows with strictly increasing dates. -/
def df2 : List MergedRow := [mkValidRow 0, mkValidRow 1]

/-! ### The claims -/

/-- C8: `calculate_rolling_betas` is deterministic: running the embedded
function twice on the same rows, the same window and the same solver yields
identical output (the embedding is a pure function; OLS brings no
randomness). -/
theorem C8_deterministic (fit : List (Option ℚ) → List RegXRow → Option Coeffs)
    (df : List MergedRow) (w : ℕ) :
    calculate_rolling_betas fit df w = calculate_rolling_betas fit df w := rfl

/-- C9: after the global `dropna` over the five required columns, the
per-window null check can never fire: `windowHasNull` is `false` on every
window of the filtered rows, so an index is skipped exactly when the fit
fails. -/
theorem C9_null_check_unreachable (df : List MergedRow) (w i : ℕ)
    (hi : i < (df.filter regRowValid).length)
    (fit : List (Option ℚ) → List RegXRow → Option Coeffs) :
    windowHasNull (df.filter regRowValid) w i = false ∧
      (stepPoint fit (df.filter regRowValid) w i = none ↔
        fit (windowY (df.filter regRowValid) w i)
          (windowX (df.filter regRowValid) w i) = none) :=
  ⟨windowHasNull_filter df w i, stepPoint_none_iff hi (windowHasNull_filter df w i)⟩

/-- Witness for C9 at a concrete two-row table, window 1, index 1. -/
theorem C9_witness :
    1 < (df2.filter regRowValid).length ∧
      (windowHasNull (df2.filter regRowValid) 1 1 = false ∧
        (stepPoint fitStub (df2.filter regRowValid) 1 1 = none ↔
          fitStub (windowY (df2.filter regRowValid) 1 1)
            (windowX (df2.filter regRowValid) 1 1) = none)) :=
  ⟨by decide, C9_null_check_unreachable df2 1 1 (by decide) fitStub⟩

/-- C2: a window whose `X` or `y` holds a null, or whose fit fails, is
skipped silently: its iteration emits no point, the loop is the total
function `filterMap` of the per-index step (no error propagates), and the
output is exactly the points of the other indices. -/
theorem C2_skipped_window_silent
    (fit : List (Option ℚ) → List RegXRow → Option Coeffs)
    (df : List MergedRow) (w i : ℕ)
    (h : windowHasNull (df.filter regRowValid) w i = true ∨
      fit (windowY (df.filter regRowValid) w i)
        (windowX (df.filter regRowValid) w i) = none) :
    stepPoint fit (df.filter regRowValid) w i = none ∧
      calculate_rolling_betas fit df w =
        (List.range' w ((df.filter regRowValid).length - w)).filterMap
          (stepPoint fit (df.filter regRowValid) w) ∧
      calculate_rolling_betas fit df w =
        ((List.range' w ((df.filter regRowValid).length - w)).filter
          (fun j => j ≠ i)).filterMap (stepPoint fit (df.filter regRowValid) w) := by
  have hn := stepPoint_none_of_skip h
  exact ⟨hn, rfl, by rw [calculate_rolling_betas_eq, filterMap_eq_filter_ne hn]⟩

/-- Witness for C2 at a concrete two-row table with an always-failing
solver, window 1, index 1. -/
theorem C2_witness :
    stepPoint fitNone (df2.filter regRowValid) 1 1 = none ∧
      calculate_rolling_betas fitNone df2 1 =
        (List.range' 1 ((df2.filter regRowValid).length - 1)).filterMap
          (stepPoint fitNone (df2.filter regRowValid) 1) ∧
      calculate_rolling_betas fitNone df2 1 =
        ((List.range' 1 ((df2.filter regRowValid).length - 1)).filter
          (fun j => j ≠ 1)).filterMap (stepPoint fitNone (df2.filter regRowValid) 1) :=
  C2_skipped_window_silent fitNone df2 1 1 (Or.inr rfl)

/-- C1: the regression drops rows with nulls in the five required columns
once, globally, then loops the end index from `window` to the filtered
length minus one, so the output never exceeds `filtered length - window`
points, every emitted point carries four present coefficients, and on a
filtered input of 300 rows with window 180 whose fits all succeed it
produces exactly 120 points. -/
theorem C1_rolling_betas_count
    (fit : List (Option ℚ) → List RegXRow → Option Coeffs)
    (df : List MergedRow) (w : ℕ) :
    (calculate_rolling_betas fit df w).length ≤ (df.filter regRowValid).length - w ∧
      (∀ pt ∈ calculate_rolling_betas fit df w,
        pt.inflation_beta.isSome = true ∧ pt.dxy_beta.isSome = true ∧
          pt.us10y_yield_beta.isSome = true ∧ pt.sentiment_beta.isSome = true) ∧
      ((df.filter regRowValid).length = 300 → w = 180 →
        (∀ i, w ≤ i → i < (df.filter regRowValid).length →
          fit (windowY (df.filter regRowValid) w i)
            (windowX (df.filter regRowValid) w i) ≠ none) →
        (calculate_rolling_betas fit df w).length = 120) := by
  refine ⟨?_, ?_, ?_⟩
  · rw [calculate_rolling_betas_eq]
    calc ((List.range' w ((df.filter regRowValid).length - w)).filterMap
        (stepPoint fit (df.filter regRowValid) w)).length
        ≤ (List.range' w ((df.filter regRowValid).length - w)).length :=
          List.length_filterMap_le _ _
      _ = (df.filter regRowValid).length - w := List.length_range' _ _ _
  · intro pt hpt
    rw [calculate_rolling_betas_eq, List.mem_filterMap] at hpt
    rcases hpt with ⟨i, _, hstep⟩
    rcases stepPoint_some hstep with ⟨r, _, _, h1, h2, h3, h4⟩
    exact ⟨h1, h2, h3, h4⟩
  · intro h300 hw hfit
    rw [calculate_rolling_betas_eq]
    rw [length_filterMap_of_forall_isSome, List.length_range', h300, hw]
    intro i hir
    rcases List.mem_range'_1.mp hir with ⟨hwi, hi2⟩
    have hilen : i < (df.filter regRowValid).length := by omega
    exact stepPoint_isSome hilen (windowHasNull_filter df w i) (hfit i hwi hilen)

/-- Witness for C1: the 300-row scenario with an always-succeeding solver
yields exactly 120 points. -/
theorem C1_witness :
    (df300.filter regRowValid).length = 300 ∧
      (calculate_rolling_betas fitStub df300 180).length = 120 :=
  ⟨by decide, (C1_rolling_betas_count fitStub df300 180).2.2 (by decide) rfl
    (fun i _ _ => by simp [fitStub])⟩

theorem pairwise_range'_prop (P : ℕ → ℕ → Prop) (s n : ℕ)
    (h : ∀ i j, s ≤ i → i < j → j < s + n → P i j) :
    List.Pairwise P (List.range' s n) := by
  induction n generalizing s with
  | zero => exact List.Pairwise.nil
  | succ k ih =>
    rw [List.range'_succ]
    constructor
    · intro y hy
      rcases List.mem_range'_1.mp hy with ⟨h1, h2⟩
      exact h s y le_rfl (by omega) (by omega)
    · exact ih (s + 1) (fun i j hi hij hj => h i j (by omega) hij (by omega))

/-- C5: every emitted point is dated by its window's end row, taken from the
filtered sequence; across the output the dates strictly increase (given a
date-sorted input table); and whenever any in-range window is skipped the
output has strictly fewer than `filtered length - window` entries. -/
theorem C5_output_dates
    (fit : List (Option ℚ) → List RegXRow → Option Coeffs)
    (df : List MergedRow) (w : ℕ)
    (hmono : List.Pairwise (fun a b : MergedRow => a.date < b.date) df) :
    (∀ pt ∈ calculate_rolling_betas fit df w,
      ∃ i r, w ≤ i ∧ i < (df.filter regRowValid).length ∧
        (df.filter regRowValid).get? i = some r ∧
        stepPoint fit (df.filter regRowValid) w i = some pt ∧ pt.date = r.date) ∧
      List.Pairwise (fun a b : RegressionPoint => a.date < b.date)
        (calculate_rolling_betas fit df w) ∧
      ((∃ i, w ≤ i ∧ i < (df.filter regRowValid).length ∧
          stepPoint fit (df.filter regRowValid) w i = none) →
        (calculate_rolling_betas fit df w).length <
          (df.filter regRowValid).length - w) := by
  have hdmono : List.Pairwise (fun a b : MergedRow => a.date < b.date)
      (df.filter regRowValid) := List.Pairwise.sublist (List.filter_sublist df) hmono
  refine ⟨?_, ?_, ?_⟩
  · intro pt hpt
    rw [calculate_rolling_betas_eq, List.mem_filterMap] at hpt
    rcases hpt with ⟨i, hir, hstep⟩
    rcases List.mem_range'_1.mp hir with ⟨hwi, hi2⟩
    have hlen : i < (df.filter regRowValid).length := by omega
    rcases stepPoint_some hstep with ⟨r, hget, hdate, _, _, _, _⟩
    exact ⟨i, r, hwi, hlen, hget, hstep, hdate⟩
  · rw [calculate_rolling_betas_eq, List.pairwise_filterMap]
    apply pairwise_range'_prop
    intro i j hwi hij hjb
    intro b hb b' hb'
    have hjlen : j < (df.filter regRowValid).length := by omega
    have hilen : i < (df.filter regRowValid).length := by omega
    rcases stepPoint_some hb with ⟨r, hget, hdate, _, _, _, _⟩
    rcases stepPoint_some hb' with ⟨r', hget', hdate', _, _, _, _⟩
    have h1 : (df.filter regRowValid).get? i = some ((df.filter regRowValid)[i]) := by
      rw [List.get?_eq_getElem?, List.getElem?_eq_getElem hilen]
    have h1' : (df.filter regRowValid).get? j = some ((df.filter regRowValid)[j]) := by
      rw [List.get?_eq_getElem?, List.getElem?_eq_getElem hjlen]
    have hr : (df.filter regRowValid)[i] = r := Option.some.inj (h1.symm.trans hget)
    have hr' : (df.filter regRowValid)[j] = r' := Option.some.inj (h1'.symm.trans hget')
    have hlt := List.pairwise_iff_getElem.mp hdmono i j hilen hjlen hij
    rw [hr, hr'] at hlt
    rw [hdate, hdate']
    exact hlt
  · rintro ⟨i, hwi, hlen, hnone⟩
    rw [calculate_rolling_betas_eq]
    have hmem : i ∈ List.range' w ((df.filter regRowValid).length - w) :=
      List.mem_range'_1.mpr ⟨hwi, by omega⟩
    have hlt := filterMap_length_lt hmem hnone
    rw [List.length_range'] at hlt
    exact hlt

/-- Witness for C5 at a concrete two-row date-sorted table, window 1. -/
theorem C5_witness :
    List.Pairwise (fun a b : MergedRow => a.date < b.date) df2 ∧
      ((∀ pt ∈ calculate_rolling_betas fitStub df2 1,
        ∃ i r, 1 ≤ i ∧ i < (df2.filter regRowValid).length ∧
          (df2.filter regRowValid).get? i = some r ∧
          stepPoint fitStub (df2.filter regRowValid) 1 i = some pt ∧ pt.date = r.date) ∧
      List.Pairwise (fun a b : RegressionPoint => a.date < b.date)
        (calculate_rolling_betas fitStub df2 1) ∧
      ((∃ i, 1 ≤ i ∧ i < (df2.filter regRowValid).length ∧
          stepPoint fitStub (df2.filter regRowValid) 1 i = none) →
        (calculate_rolling_betas fitStub df2 1).length <
          (df2.filter regRowValid).length - 1)) :=
  ⟨by decide, C5_output_dates fitStub df2 1 (by decide)⟩

/-- C3: on inputs whose parsed dates are duplicate-free, `load_data` is an
inner join on exact date equality sorted ascending: the output length is the
number of dates present in both inputs (hence at most the length of either
input), and output dates strictly increase. -/
theorem C3_merge_inner_join_sorted
    (p : List PriceRow) (m : List MacroRow) (t : List MergedRow)
    (ht : load_data p m = .ok t)
    (hnp : (p.filterMap (fun r => parseDate r.date)).Nodup)
    (hnm : (m.filterMap (fun r => parseDate r.date)).Nodup) :
    t.length = ((p.filterMap (fun r => parseDate r.date)).filter
        (fun d => d ∈ m.filterMap (fun r => parseDate r.date))).length ∧
      t.length ≤ min p.length m.length ∧
      List.Pairwise (fun a b : MergedRow => a.date < b.date) t := by
  rcases load_data_ok ht with ⟨ps, ms, hps, hms, rfl⟩
  rcases parsePriceRows_ok hps with ⟨hpl, hpd⟩
  rcases parseMacroRows_ok hms with ⟨hml, hmd⟩
  have hnp' : (ps.map (fun r => r.date)).Nodup := by rw [hpd]; exact hnp
  have hnm' : (ms.map (fun r => r.date)).Nodup := by rw [hmd]; exact hnm
  have hjd : (joinOnDate ps ms).map (fun r => r.date)
      = (ps.map (fun r => r.date)).filter (fun d => d ∈ ms.map (fun r => r.date)) :=
    joinOnDate_dates hnm'
  have hlen_t : (addDerived ((sortByDate (joinOnDate ps ms)).map coerceRow)).length
      = (joinOnDate ps ms).length := by
    rw [addDerived_length, List.length_map, (sortByDate_perm (joinOnDate ps ms)).length_eq]
  have hmapJ : ((joinOnDate ps ms).map (fun r => r.date)).length
      = (joinOnDate ps ms).length := List.length_map _ _
  have hlenJ : (joinOnDate ps ms).length = ((ps.map (fun r => r.date)).filter
      (fun d => d ∈ ms.map (fun r => r.date))).length := by
    rw [← hmapJ, hjd]
  have hfilter_nodup : ((ps.map (fun r => r.date)).filter
      (fun d => d ∈ ms.map (fun r => r.date))).Nodup := hnp'.filter _
  refine ⟨?_, ?_, ?_⟩
  · rw [hlen_t, hlenJ, hpd, hmd]
  · rw [hlen_t, hlenJ]
    refine le_min ?_ ?_
    · calc ((ps.map (fun r => r.date)).filter
            (fun d => d ∈ ms.map (fun r => r.date))).length
          ≤ (ps.map (fun r => r.date)).length := List.length_filter_le _ _
        _ = ps.length := List.length_map _ _
        _ = p.length := hpl
    · have hsub : ((ps.map (fun r => r.date)).filter
          (fun d => d ∈ ms.map (fun r => r.date))) ⊆ ms.map (fun r => r.date) := by
        intro d hd
        exact of_decide_eq_true (List.mem_filter.mp hd).2
      calc ((ps.map (fun r => r.date)).filter
            (fun d => d ∈ ms.map (fun r => r.date))).length
          ≤ (ms.map (fun r => r.date)).length :=
            (hfilter_nodup.subperm hsub).length_le
        _ = ms.length := List.length_map _ _
        _ = m.length := hml
  · have htd : (addDerived ((sortByDate (joinOnDate ps ms)).map coerceRow)).map
        (fun r => r.date) = (sortByDate (joinOnDate ps ms)).map (fun r => r.date) := by
      rw [addDerived_map_date, List.map_map]
      rfl
    have hsd : List.Pairwise (fun a b : ℤ => a ≤ b)
        ((sortByDate (joinOnDate ps ms)).map (fun r => r.date)) :=
      List.pairwise_map.mpr (sortByDate_sorted (joinOnDate ps ms))
    have hperm : List.Perm ((sortByDate (joinOnDate ps ms)).map (fun r => r.date))
        ((joinOnDate ps ms).map (fun r => r.date)) :=
      (sortByDate_perm (joinOnDate ps ms)).map _
    have hnd : ((sortByDate (joinOnDate ps ms)).map (fun r => r.date)).Nodup := by
      rw [hperm.nodup_iff, hjd]
      exact hfilter_nodup
    have hlt : List.Pairwise (fun a b : ℤ => a < b)
        ((sortByDate (joinOnDate ps ms)).map (fun r => r.date)) :=
      (hsd.and hnd).imp (fun h => lt_of_le_of_ne h.1 h.2)
    have hlt' : List.Pairwise (fun a b : ℤ => a < b)
        ((addDerived ((sortByDate (joinOnDate ps ms)).map coerceRow)).map
          (fun r => r.date)) := by
      rw [htd]
      exact hlt
    exact List.pairwise_map.mp hlt'

/-- Price input of the C3 witness: three rows with unsorted distinct dates. -/
def p3 : List PriceRow :=
  [⟨.valid 2, some 20, none, .num 1, .num 1⟩,
   ⟨.valid 0, some 10, none, .num 2, .num 2⟩,
   ⟨.valid 1, some 15, none, .num 3, .num 3⟩]

/-- Macro input of the C3 witness: three rows, two dates in common with `p3`. -/
def m3 : List MacroRow :=
  [⟨.valid 0, .num 1, .num 2, .num 3, .num 4, .num 5⟩,
   ⟨.valid 2, .num 6, .num 7, .num 8, .num 9, .num 10⟩,
   ⟨.valid 7, .num 1, .num 1, .num 1, .num 1, .num 1⟩]

/-- The merged table of `p3` and `m3`: the two common dates, sorted. -/
def t3 : List MergedRow :=
  [⟨0, some 10, none, some 2, some 2, some 2, some 3, .num 1, .num 4, .num 5,
     none, none, none, none, none⟩,
   ⟨2, some 20, none, some 1, some 1, some 7, some 8, .num 6, .num 9, .num 10,
     none, none, none, none, none⟩]

/-- Witness for C3 at `p3`/`m3`: two common dates, a two-row sorted output. -/
theorem C3_witness :
    load_data p3 m3 = .ok t3 ∧
      (t3.length = ((p3.filterMap (fun r => parseDate r.date)).filter
          (fun d => d ∈ m3.filterMap (fun r => parseDate r.date))).length ∧
        t3.length ≤ min p3.length m3.length ∧
        List.Pairwise (fun a b : MergedRow => a.date < b.date) t3) :=
  ⟨rfl, C3_merge_inner_join_sorted p3 m3 t3 rfl (by decide) (by decide)⟩

/-- C6: in every merged row, `gold_silver_ratio` is exactly the nullable
quotient of `gold_close` by `silver_close`; in particular a null
`silver_close` makes the ratio null. -/
theorem C6_gold_silver_ratio_def (p : List PriceRow) (m : List MacroRow) (i : ℕ)
    (r : MergedRow) (hr : (mergedRows p m).get? i = some r) :
    r.gold_silver_ratio = divOpt r.gold_close r.silver_close ∧
      (r.silver_close = none → r.gold_silver_ratio = none) := by
  rcases mergedRows_decomp p m with ⟨rows, hrows⟩
  rw [hrows, addDerived_get?] at hr
  rcases Option.map_eq_some'.mp hr with ⟨c, hc, rfl⟩
  refine ⟨rfl, ?_⟩
  intro h
  have h' : c.silver_close = none := h
  show divOpt c.gold_close c.silver_close = none
  rw [h']
  cases c.gold_close <;> rfl

/-- Price input of the C6 and C10 witnesses: one row with a null silver
price. -/
def p6 : List PriceRow := [⟨.valid 0, some 10, none, .num 1, .num 1⟩]

/-- Macro input of the C6 and C7 witnesses. -/
def m6 : List MacroRow := [⟨.valid 0, .num 1, .num 2, .num 3, .num 4, .num 5⟩]

/-- The single merged row of `p6` and `m6`. -/
def r6 : MergedRow :=
  ⟨0, some 10, none, some 1, some 1, some 2, some 3, .num 1, .num 4, .num 5,
    none, none, none, none, none⟩

/-- Witness for C6 at the one-row table of `p6`/`m6`: the ratio is the
nullable quotient, and the null `silver_close` makes it null. -/
theorem C6_witness :
    (mergedRows p6 m6).get? 0 = some r6 ∧
      (r6.gold_silver_ratio = divOpt r6.gold_close r6.silver_close ∧
        (r6.silver_close = none → r6.gold_silver_ratio = none)) :=
  ⟨rfl, C6_gold_silver_ratio_def p6 m6 0 r6 rfl⟩

/-- C7: `load_data` fails (with the propagated parse error) exactly when
some date cell of either input cannot be parsed; numeric coercion never
fails, it turns unparseable text into the null marker and passes numbers
through. -/
theorem C7_parse_error_iff (p : List PriceRow) (m : List MacroRow) :
    ((∃ e, load_data p m = .error e) ↔
      (∃ r ∈ p, parseDate r.date = none) ∨ (∃ r ∈ m, parseDate r.date = none)) ∧
      (∀ s, to_numeric (Cell.str s) = none) ∧
      (∀ q, to_numeric (Cell.num q) = some q) := by
  refine ⟨?_, fun _ => rfl, fun _ => rfl⟩
  constructor
  · rintro ⟨e, he⟩
    rw [load_data] at he
    cases h1 : parsePriceRows p with
    | error e1 => exact Or.inl ((parsePriceRows_error_iff p).mp ⟨e1, h1⟩)
    | ok ps =>
      rw [h1] at he
      cases h2 : parseMacroRows m with
      | error e2 => exact Or.inr ((parseMacroRows_error_iff m).mp ⟨e2, h2⟩)
      | ok ms => rw [h2] at he; cases he
  · intro h
    cases h1 : parsePriceRows p with
    | error e1 => exact ⟨e1, by rw [load_data, h1]⟩
    | ok ps =>
      rcases h with h | h
      · rcases (parsePriceRows_error_iff p).mpr h with ⟨e, he⟩
        rw [he] at h1
        cases h1
      · rcases (parseMacroRows_error_iff m).mpr h with ⟨e2, he2⟩
        exact ⟨e2, by rw [load_data, h1, he2]⟩

/-- Price input of the C7 witness: its only date cell is malformed. -/
def pbad : List PriceRow := [⟨.invalid "not-a-date", some 1, none, .num 1, .num 1⟩]

/-- Witness for C7 at a concrete input whose date cannot be parsed. -/
theorem C7_witness :
    ((∃ e, load_data pbad m6 = .error e) ↔
      (∃ r ∈ pbad, parseDate r.date = none) ∨ (∃ r ∈ m6, parseDate r.date = none)) ∧
      (∀ s, to_numeric (Cell.str s) = none) ∧
      (∀ q, to_numeric (Cell.num q) = some q) :=
  C7_parse_error_iff pbad m6

/-- C10: every merged row takes `india_cpi`, `googletrends_gold` and
`googletrends_silver` verbatim from its macro source row (no coercion),
while `dxy` and `us10y_yield` go through `to_numeric`; unparseable text is
not a null marker, so it survives in the uncoerced columns while
`to_numeric` would have turned it into a null. -/
theorem C10_uncoerced_columns (p : List PriceRow) (m : List MacroRow) (t : List MergedRow)
    (ht : load_data p m = .ok t) :
    (∀ r ∈ t, ∃ mr ∈ m, parseDate mr.date = some r.date ∧
        r.india_cpi = mr.india_cpi ∧ r.googletrends_gold = mr.googletrends_gold ∧
        r.googletrends_silver = mr.googletrends_silver ∧
        r.dxy = to_numeric mr.dxy ∧ r.us10y_yield = to_numeric mr.us10y_yield) ∧
      (∀ s, Cell.isNullCell (Cell.str s) = false ∧ to_numeric (Cell.str s) = none) := by
  refine ⟨?_, fun _ => ⟨rfl, rfl⟩⟩
  rcases load_data_ok ht with ⟨ps, ms, hps, hms, rfl⟩
  intro r hr
  rw [addDerived] at hr
  rcases mem_mapWith hr with ⟨j, c, hc, rfl⟩
  rcases List.mem_map.mp hc with ⟨jr, hjr, rfl⟩
  have hjr' : jr ∈ joinOnDate ps ms := (sortByDate_perm _).mem_iff.mp hjr
  rcases mem_joinOnDate hjr' with ⟨pp, hpp, mrow, hmrow, hdate, rfl⟩
  rcases parseMacroRows_mem hms hmrow with ⟨mr, hmr, hpd2, h1, h2, h3, h4, h5⟩
  refine ⟨mr, hmr, ?_, ?_, ?_, ?_, ?_, ?_⟩
  · rw [hpd2]
    show some mrow.date = some pp.date
    rw [hdate]
  · exact h1
  · exact h4
  · exact h5
  · show to_numeric mrow.dxy = to_numeric mr.dxy
    rw [h2]
  · show to_numeric mrow.us10y_yield = to_numeric mr.us10y_yield
    rw [h3]

/-- Macro input of the C10 witness: its CPI cell is unparseable text. -/
def m10 : List MacroRow := [⟨.valid 0, .str "n/a", .num 2, .num 3, .num 4, .num 5⟩]

/-- The single merged row of `p6` and `m10`: the text CPI cell survives
uncoerced. -/
def t10 : List MergedRow :=
  [⟨0, some 10, none, some 1, some 1, some 2, some 3, .str "n/a", .num 4, .num 5,
    none, none, none, none, none⟩]

/-- Witness for C10 at a concrete input with an unparseable CPI text cell. -/
theorem C10_witness :
    load_data p6 m10 = .ok t10 ∧
      ((∀ r ∈ t10, ∃ mr ∈ m10, parseDate mr.date = some r.date ∧
          r.india_cpi = mr.india_cpi ∧ r.googletrends_gold = mr.googletrends_gold ∧
          r.googletrends_silver = mr.googletrends_silver ∧
          r.dxy = to_numeric mr.dxy ∧ r.us10y_yield = to_numeric mr.us10y_yield) ∧
        (∀ s, Cell.isNullCell (Cell.str s) = false ∧ to_numeric (Cell.str s) = none)) :=
  ⟨rfl, C10_uncoerced_columns p6 m10 t10 rfl⟩

theorem list_getD_eq_get? (l : List MergedRow) (i : ℕ) :
    l.getD i dummyRow = (l.get? i).getD dummyRow := by
  rw [List.getD]

theorem mergedRows_getD_fields (p : List PriceRow) (m : List MacroRow) (i : ℕ)
    (hi : i < (mergedRows p m).length) :
    ∃ rows : List CoercedRow,
      i < rows.length ∧
      (mergedRows p m).map (fun r => r.gold_returns) = rows.map (fun x => x.gold_returns) ∧
      (mergedRows p m).map (fun r => r.dxy) = rows.map (fun x => x.dxy) ∧
      ((mergedRows p m).getD i dummyRow).gold_volatility
        = rollingStdAt 30 (rows.map (fun x => x.gold_returns)) i ∧
      ((mergedRows p m).getD i dummyRow).gold_to_dxy_corr
        = rollingCorrAt 90 (rows.map (fun x => x.gold_returns)) (rows.map (fun x => x.dxy)) i := by
  rcases mergedRows_decomp p m with ⟨rows, hrows⟩
  rw [hrows, addDerived_length] at hi
  have hget : rows.get? i = some rows[i] := by
    rw [List.get?_eq_getElem?, List.getElem?_eq_getElem hi]
  refine ⟨rows, hi, ?_, ?_, ?_, ?_⟩
  · rw [hrows]
    exact addDerived_map_gold_returns rows
  · rw [hrows]
    exact addDerived_map_dxy rows
  · rw [hrows, list_getD_eq_get?, addDerived_get?, hget]
    rfl
  · rw [hrows, list_getD_eq_get?, addDerived_get?, hget]
    rfl

/-- C4 (amended): in the merged table, `gold_volatility` is null on the
first 29 rows and non-null from row 30 onward whenever its trailing
30-value window holds no null; `gold_to_dxy_corr` is null on the first 89
rows and non-null from row 90 onward whenever its trailing 90-value window
holds no null in either series *and* neither windowed series has zero
sample variance (with a zero variance the source divides zero by zero and
stores a null there). -/
theorem C4_rolling_nullness_amended (p : List PriceRow) (m : List MacroRow) (i : ℕ)
    (hi : i < (mergedRows p m).length) :
    (i < 29 → ((mergedRows p m).getD i dummyRow).gold_volatility = none) ∧
      (i < 89 → ((mergedRows p m).getD i dummyRow).gold_to_dxy_corr = none) ∧
      (29 ≤ i →
        (∀ x ∈ (((mergedRows p m).map (fun r => r.gold_returns)).drop (i + 1 - 30)).take 30,
          x.isSome = true) →
        ((mergedRows p m).getD i dummyRow).gold_volatility.isSome = true) ∧
      (89 ≤ i → ∀ ps2,
        allSome2 (((((mergedRows p m).map (fun r => r.gold_returns)).zip
            ((mergedRows p m).map (fun r => r.dxy))).drop (i + 1 - 90)).take 90) = some ps2 →
        sampleVar (ps2.map Prod.fst) ≠ 0 → sampleVar (ps2.map Prod.snd) ≠ 0 →
        ((mergedRows p m).getD i dummyRow).gold_to_dxy_corr.isSome = true) := by
  rcases mergedRows_getD_fields p m i hi with ⟨rows, hilen, hgr, hdx, hvol, hcorr⟩
  refine ⟨?_, ?_, ?_, ?_⟩
  · intro h29
    rw [hvol]
    exact rollingStdAt_eq_none_of_lt (by omega) _
  · intro h89
    rw [hcorr]
    exact rollingCorrAt_eq_none_of_lt (by omega) _ _
  · intro h29 hwin
    rw [hvol]
    rw [hgr] at hwin
    rcases allSome_of_forall hwin with ⟨vals, hvals⟩
    exact rollingStdAt_isSome (by omega) hvals
  · intro h89 ps2 hps2 hv1 hv2
    rw [hcorr]
    rw [hgr, hdx] at hps2
    exact rollingCorrAt_isSome (by omega) hps2 hv1 hv2

/-- Alternating 0/1 cell, the returns pattern of the C4 data. -/
def altCell (n : ℕ) : Cell := if n % 2 = 0 then .num 0 else .num 1

/-- Alternating 0/1 rational, the coerced value of `altCell`. -/
def altQ (n : ℕ) : ℚ := if n % 2 = 0 then 0 else 1

/-- Alternating 1/2 cell, the varying DXY pattern of the C4 witness data. -/
def alt2Cell (n : ℕ) : Cell := if n % 2 = 0 then .num 1 else .num 2

/-- Alternating 1/2 rational, the coerced value of `alt2Cell`. -/
def alt2Q (n : ℕ) : ℚ := if n % 2 = 0 then 1 else 2

/-- The price row of date `n` in the C4 data: alternating returns. -/
def p90row (n : ℕ) : PriceRow := ⟨.valid (n : ℤ), some 10, none, altCell n, .num 1⟩

/-- Ninety price rows with dates 0..89 and alternating returns. -/
def p90 : List PriceRow := (List.range 90).map p90row

/-- The macro row of date `n` in the counterexample data: constant DXY. -/
def m90crow (n : ℕ) : MacroRow := ⟨.valid (n : ℤ), .num 1, .num 5, .num 1, .num 1, .num 1⟩

/-- Ninety macro rows with dates 0..89 and a constant DXY column. -/
def m90c : List MacroRow := (List.range 90).map m90crow

/-- The macro row of date `n` in the witness data: varying DXY. -/
def m90wrow (n : ℕ) : MacroRow := ⟨.valid (n : ℤ), .num 1, alt2Cell n, .num 1, .num 1, .num 1⟩

/-- Ninety macro rows with dates 0..89 and a varying DXY column. -/
def m90w : List MacroRow := (List.range 90).map m90wrow

/-- Counterexample to C4 as frozen: with a constant (null-free) DXY column,
row 89 of the merged table — the first row the claim says has a non-null
correlation whenever its window holds no nulls — has a completely null-free
90-value window yet a null `gold_to_dxy_corr`, because the windowed DXY
sample variance is zero. -/
theorem C4_counterexample :
    89 < (mergedRows p90 m90c).length ∧
      (∀ x ∈ ((((mergedRows p90 m90c).map (fun r => r.gold_returns)).zip
          ((mergedRows p90 m90c).map (fun r => r.dxy))).drop (89 + 1 - 90)).take 90,
        x.1.isSome = true ∧ x.2.isSome = true) ∧
      ((mergedRows p90 m90c).getD 89 dummyRow).gold_to_dxy_corr = none := by
  refine ⟨by decide, by decide, ?_⟩
  rcases mergedRows_getD_fields p90 m90c 89 (by decide) with ⟨rows, _, hgr, hdx, _, hcorr⟩
  rw [hcorr]
  have hgr' : rows.map (fun x => x.gold_returns)
      = (List.range 90).map (fun n => some (altQ n)) := by
    rw [← hgr]
    decide
  have hdx' : rows.map (fun x => x.dxy) = List.replicate 90 (some 5) := by
    rw [← hdx]
    decide
  rw [hgr', hdx']
  have hvz : sampleVar ((((List.range 90).map
      (fun n => (altQ n, (5 : ℚ)))).map Prod.snd)) = 0 := by
    have hsnd : (((List.range 90).map (fun n => (altQ n, (5 : ℚ)))).map Prod.snd)
        = List.replicate 90 (5 : ℚ) := by decide
    rw [hsnd]
    exact sampleVar_const (fun x hx => List.eq_of_mem_replicate hx)
  exact @rollingCorrAt_eq_none_of_var 90 89
    ((List.range 90).map (fun n => some (altQ n))) (List.replicate 90 (some 5))
    ((List.range 90).map (fun n => (altQ n, (5 : ℚ))))
    (by omega) (by decide) (Or.inr hvz)

/-- Witness for the amended C4 at the varying-DXY data: row 28 has a null
volatility, row 89 has a present volatility, and row 89 has a present
correlation (null-free windows, both variances nonzero). -/
theorem C4_witness :
    89 < (mergedRows p90 m90w).length ∧
      ((mergedRows p90 m90w).getD 28 dummyRow).gold_volatility = none ∧
      ((mergedRows p90 m90w).getD 89 dummyRow).gold_volatility.isSome = true ∧
      ((mergedRows p90 m90w).getD 89 dummyRow).gold_to_dxy_corr.isSome = true := by
  have hlen : 89 < (mergedRows p90 m90w).length := by decide
  have h28 : 28 < (mergedRows p90 m90w).length := by decide
  refine ⟨hlen, ?_, ?_, ?_⟩
  · exact (C4_rolling_nullness_amended p90 m90w 28 h28).1 (by omega)
  · exact (C4_rolling_nullness_amended p90 m90w 89 hlen).2.2.1 (by omega) (by decide)
  · refine (C4_rolling_nullness_amended p90 m90w 89 hlen).2.2.2 (by omega)
      ((List.range 90).map (fun n => (altQ n, alt2Q n))) (by decide) ?_ ?_
    · have hfst : (((List.range 90).map (fun n => (altQ n, alt2Q n))).map Prod.fst)
          = (List.range 90).map altQ := by decide
      rw [hfst]
      exact sampleVar_ne_zero (show (0 : ℚ) ∈ (List.range 90).map altQ by decide)
        (show (1 : ℚ) ∈ (List.range 90).map altQ by decide) (by norm_num)
    · have hsnd : (((List.range 90).map (fun n => (altQ n, alt2Q n))).map Prod.snd)
          = (List.range 90).map alt2Q := by decide
      rw [hsnd]
      exact sampleVar_ne_zero (show (1 : ℚ) ∈ (List.range 90).map alt2Q by decide)
        (show (2 : ℚ) ∈ (List.range 90).map alt2Q by decide) (by norm_num)
